import Mathlib

/-!
Verification of the CAN controller driver core
(`middleware/CANopenNode/port/can.h`).

Pure helper functions of the header (`can_dlc_to_bytes`,
`can_bytes_to_dlc`, `can_frame_matches_filter`, `can_get_max_filters`,
`CAN_CALC_TDCO`) are embedded directly from the C source.  Routines that
are only declared in the header (`can_calc_timing`, `can_calc_prescaler`
and the transmit-scheduler ordering behind `can_send`) are modelled from
the design specification; their doc comments say so explicitly.

Machine integers of the C code are modelled as `Nat` (all the operations
involved stay far below the 32-bit range for the inputs the claims
quantify over); fallible routines return `Option` or an error sentinel
exactly as the C code does.
-/

/-- Bit mask for a standard (11-bit) CAN identifier (`CAN_STD_ID_MASK`). -/
def CAN_STD_ID_MASK : Nat := 0x7FF

/-- Bit mask for an extended (29-bit) CAN identifier (`CAN_EXT_ID_MASK`). -/
def CAN_EXT_ID_MASK : Nat := 0x1FFFFFFF

/-- Frame flag `CAN_FRAME_IDE` (`BIT(0)`): frame uses an extended 29-bit id. -/
def CAN_FRAME_IDE : Nat := 1

/-- Frame flag `CAN_FRAME_RTR` (`BIT(1)`): frame is a remote transmission request. -/
def CAN_FRAME_RTR : Nat := 2

/-- Filter flag `CAN_FILTER_IDE` (`BIT(0)`): filter matches extended 29-bit ids. -/
def CAN_FILTER_IDE : Nat := 1

/-- CAN frame structure (`struct can_frame`).  The payload union is modelled
as a byte list; the timestamp/padding field is not needed by any claim. -/
structure can_frame where
  id : Nat
  dlc : Nat
  flags : Nat
  data : List Nat
deriving DecidableEq, Repr

/-- CAN filter structure (`struct can_filter`). -/
structure can_filter where
  id : Nat
  mask : Nat
  flags : Nat
deriving DecidableEq, Repr

/-- CAN bus timing structure (`struct can_timing`). -/
structure can_timing where
  sjw : Nat
  prop_seg : Nat
  phase_seg1 : Nat
  phase_seg2 : Nat
  prescaler : Nat
deriving DecidableEq, Repr

/-- Total number of time quanta of a bit time:
`1 (sync_seg) + prop_seg + phase_seg1 + phase_seg2`. -/
def totalSegs (t : can_timing) : Nat :=
  1 + t.prop_seg + t.phase_seg1 + t.phase_seg2

/-- The `dlc_table` lookup array of `can_dlc_to_bytes`. -/
def dlc_table : List Nat := [0, 1, 2, 3, 4, 5, 6, 7, 8, 12, 16, 20, 24, 32, 48, 64]

/-- `can_dlc_to_bytes`: convert a Data Length Code to the number of data
bytes, reading `dlc_table[MIN(dlc, ARRAY_SIZE(dlc_table) - 1)]`. -/
def can_dlc_to_bytes (dlc : Nat) : Nat :=
  dlc_table.getD (min dlc (dlc_table.length - 1)) 0

/-- `can_bytes_to_dlc`: convert a number of data bytes to a Data Length
Code, via the chained conditional of the C source. -/
def can_bytes_to_dlc (num_bytes : Nat) : Nat :=
  if num_bytes ≤ 8 then num_bytes
  else if num_bytes ≤ 12 then 9
  else if num_bytes ≤ 16 then 10
  else if num_bytes ≤ 20 then 11
  else if num_bytes ≤ 24 then 12
  else if num_bytes ≤ 32 then 13
  else if num_bytes ≤ 48 then 14
  else 15

/-- `can_frame_matches_filter`: check whether a CAN frame matches a CAN
filter, mirroring the three early-return tests of the C source. -/
def can_frame_matches_filter (frame : can_frame) (filter : can_filter) : Bool :=
  if frame.flags &&& CAN_FRAME_IDE ≠ 0 ∧ filter.flags &&& CAN_FILTER_IDE = 0 then
    false
  else if frame.flags &&& CAN_FRAME_IDE = 0 ∧ filter.flags &&& CAN_FILTER_IDE ≠ 0 then
    false
  else if (frame.id ^^^ filter.id) &&& filter.mask ≠ 0 then
    false
  else
    true

/-- The `CLAMP(val, low, high)` utility macro: clamp `val` into
`[low, high]`. -/
def CLAMP (val low high : Nat) : Nat :=
  if val < low then low else if high < val then high else val

/-- `CAN_CALC_TDCO`: Transmitter Delay Compensation Offset from data phase
timing parameters, clamped to the supported range. -/
def CAN_CALC_TDCO (timing_data : can_timing) (tdco_min tdco_max : Nat) : Nat :=
  CLAMP ((1 + timing_data.prop_seg + timing_data.phase_seg1) * timing_data.prescaler)
    tdco_min tdco_max

/-- The part of `struct can_driver_api` the claims need: the optional
`get_max_filters` backend capability (a nullable function pointer,
modelled as `Option`).  The other callbacks and the timing bound fields
are irrelevant to the claims and omitted. -/
structure can_driver_api where
  get_max_filters : Option (Bool → Int)

/-- `can_get_max_filters`: return `-1` (the documented "not implemented by
the driver" sentinel) when the backend capability is absent, otherwise
forward the backend's answer for the requested id width. -/
def can_get_max_filters (api : can_driver_api) (ide : Bool) : Int :=
  match api.get_max_filters with
  | none => -1
  | some f => f ide

/-- Generic helper: the element of a list minimising a cost function
(keeping the earliest element on ties), or `none` for the empty list. -/
def argminList {α : Type} (cost : α → Nat) : List α → Option α
  | [] => none
  | x :: xs => some (xs.foldl (fun u v => if cost v < cost u then v else u) x)

/-- Modelled from the spec: the default sample point selection of
`can_calc_timing` (whose body is not part of the analysed sources, only
its declaration).  A zero requested sample point selects 750 permille for
bitrates above 800 kbit/s, 800 permille for bitrates above 500 kbit/s and
875 permille otherwise; a nonzero request is used as given. -/
def resolveSamplePoint (bitrate sample_pnt : Nat) : Nat :=
  if sample_pnt ≠ 0 then sample_pnt
  else if 800000 < bitrate then 750
  else if 500000 < bitrate then 800
  else 875

/-- Modelled from the spec: the exact-bitrate search space of
`can_calc_timing` (whose body is not part of the analysed sources).  All
pairs `(prescaler, total_segments)` inside the supplied prescaler range
and segment-sum range for which the core clock divides into the requested
bitrate exactly, i.e. `core_clock = bitrate * prescaler * total_segments`. -/
def exactCandidates (core_clock bitrate pres_min pres_max ts_min ts_max : Nat) :
    List (Nat × Nat) :=
  (List.range' pres_min (pres_max + 1 - pres_min)).flatMap fun p =>
    (List.range' ts_min (ts_max + 1 - ts_min)).filterMap fun ts =>
      if core_clock = bitrate * p * ts then some (p, ts) else none

/-- Modelled from the spec: the number of time quanta before the sample
edge (`1 + prop_seg + phase_seg1`) placing the sample point as close as
integer quanta allow to `sp` permille of the `ts` quanta of the bit time,
kept inside the valid range `1 ≤ quanta ≤ ts - 1`. -/
def sampleQuanta (ts sp : Nat) : Nat :=
  max 1 (min (ts - 1) (ts * sp / 1000))

/-- Modelled from the spec: phase segment 1 of the chosen segment split. -/
def splitPs1 (ts sp : Nat) : Nat := (sampleQuanta ts sp - 1) / 2

/-- Modelled from the spec: propagation segment of the chosen segment split. -/
def splitProp (ts sp : Nat) : Nat := sampleQuanta ts sp - 1 - splitPs1 ts sp

/-- Modelled from the spec: phase segment 2 of the chosen segment split. -/
def splitPs2 (ts sp : Nat) : Nat := ts - sampleQuanta ts sp

/-- Modelled from the spec: absolute deviation (in permille) between the
sample point achievable with `ts` total quanta and the requested one. -/
def spCost (ts sp : Nat) : Nat :=
  if sp ≤ sampleQuanta ts sp * 1000 / ts then sampleQuanta ts sp * 1000 / ts - sp
  else sp - sampleQuanta ts sp * 1000 / ts

/-- Modelled from the spec: the core of `can_calc_timing` (whose body is
not part of the analysed sources) after the sample point has been
resolved.  Among the exact-bitrate candidates within bounds it chooses the
one whose achievable sample point is closest to the requested one, splits
the segments accordingly and returns the timing parameters together with
the signed sample point deviation in permille; it returns `none`
(Infeasible/unsupported rate) when no candidate within bounds meets the
bitrate exactly. -/
def can_calc_timing_resolved
    (core_clock pres_min pres_max ts_min ts_max bitrate sp : Nat) :
    Option (can_timing × Int) :=
  (argminList (fun c => spCost c.2 sp)
      (exactCandidates core_clock bitrate pres_min pres_max ts_min ts_max)).map
    fun c =>
      (⟨1, splitProp c.2 sp, splitPs1 c.2 sp, splitPs2 c.2 sp, c.1⟩,
       (sampleQuanta c.2 sp * 1000 / c.2 : Int) - (sp : Int))

/-- Modelled from the spec: `can_calc_timing` (whose body is not part of
the analysed sources, only its declaration and contract).  Resolves a zero
sample point to the bitrate-dependent default, then searches the bounded
integer space for an exactly matching bitrate. -/
def can_calc_timing
    (core_clock pres_min pres_max ts_min ts_max bitrate sample_pnt : Nat) :
    Option (can_timing × Int) :=
  can_calc_timing_resolved core_clock pres_min pres_max ts_min ts_max bitrate
    (resolveSamplePoint bitrate sample_pnt)

/-- Modelled from the spec: `can_calc_prescaler` (whose body is not part
of the analysed sources, only its declaration and contract).  For a
caller-supplied fixed segment split it fills in the prescaler as
`core_clock / (bitrate * total_segments)` and returns the achieved
bitrate's rounding error: the remainder of dividing the core clock rate by
the bitrate times the timing segments. -/
def can_calc_prescaler (core_clock : Nat) (timing : can_timing) (bitrate : Nat) :
    can_timing × Nat :=
  (⟨timing.sjw, timing.prop_seg, timing.phase_seg1, timing.phase_seg2,
      core_clock / (bitrate * totalSegs timing)⟩,
   core_clock % (bitrate * totalSegs timing))

/-- Does the frame carry an extended (29-bit) identifier (`CAN_FRAME_IDE`)? -/
def frameIde (f : can_frame) : Bool := f.flags &&& CAN_FRAME_IDE != 0

/-- Is the frame a remote transmission request (`CAN_FRAME_RTR`)? -/
def frameRtr (f : can_frame) : Bool := f.flags &&& CAN_FRAME_RTR != 0

/-- Modelled from the spec: the identifier aligned to arbitration order.
A standard 11-bit identifier occupies the high 11 bits of the 29-bit
arbitration field, so it is shifted left by 18 bits (multiplied by
`2^18 = 262144`) to compare against extended identifiers. -/
def arbId (f : can_frame) : Nat :=
  if frameIde f then f.id else f.id * 262144

/-- Modelled from the spec: the transmit priority key of a pending frame
(lower key = dispatched first): identifier first, then standard before
extended at equal arbitration bits, then data before remote request. -/
def prioKey (f : can_frame) : Nat :=
  arbId f * 4 + (if frameIde f then 2 else 0) + (if frameRtr f then 1 else 0)

/-- Modelled from the spec: the TransmitScheduler behind `can_send` (whose
implementation is not part of the analysed sources, only its declaration
and contract).  Among the frames queued and not yet handed to the backend,
the next one dispatched is one with the lowest priority key. -/
def nextDispatch (queue : List can_frame) : Option can_frame :=
  argminList prioKey queue

/-- Claim C2: `can_frame_matches_filter` returns true iff the frame's and
the filter's extended-id flags agree and `(frame.id XOR filter.id) AND
filter.mask == 0`; in particular it returns false whenever the frame's and
the filter's extended-id-ness differ, regardless of id and mask values. -/
theorem can_frame_matches_filter_iff (frame : can_frame) (filter : can_filter) :
    (can_frame_matches_filter frame filter = true ↔
      ((frame.flags &&& CAN_FRAME_IDE = 0 ↔ filter.flags &&& CAN_FILTER_IDE = 0)
        ∧ (frame.id ^^^ filter.id) &&& filter.mask = 0))
    ∧ (¬ (frame.flags &&& CAN_FRAME_IDE = 0 ↔ filter.flags &&& CAN_FILTER_IDE = 0) →
      can_frame_matches_filter frame filter = false) := by
  by_cases h1 : frame.flags &&& CAN_FRAME_IDE = 0 <;>
    by_cases h2 : filter.flags &&& CAN_FILTER_IDE = 0 <;>
      by_cases h3 : (frame.id ^^^ filter.id) &&& filter.mask = 0 <;>
        simp [can_frame_matches_filter, h1, h2, h3]

/-- Witness for C2 at a concrete frame and filter: an extended-id frame
never matches a standard-id filter. -/
theorem can_frame_matches_filter_iff_witness :
    can_frame_matches_filter ⟨0x123, 0, 1, []⟩ ⟨0x123, 0x7FF, 0⟩ = false :=
  (can_frame_matches_filter_iff ⟨0x123, 0, 1, []⟩ ⟨0x123, 0x7FF, 0⟩).2 (by decide)

/-- Claim C3: for every `dlc` in `0..15`, converting the DLC to a byte
count with `can_dlc_to_bytes` and back with `can_bytes_to_dlc` reproduces
the original `dlc`. -/
theorem can_bytes_to_dlc_round_trip (dlc : Nat) (h : dlc ≤ 15) :
    can_bytes_to_dlc (can_dlc_to_bytes dlc) = dlc := by
  interval_cases dlc <;> rfl

/-- Witness for C3 at `dlc = 13`. -/
theorem can_bytes_to_dlc_round_trip_witness :
    can_bytes_to_dlc (can_dlc_to_bytes 13) = 13 :=
  can_bytes_to_dlc_round_trip 13 (by decide)

/-- Claim C4: `can_dlc_to_bytes` maps each `dlc` in `0..8` to `dlc` bytes
and maps `9 → 12`, `10 → 16`, `11 → 20`, `12 → 24`, `13 → 32`, `14 → 48`,
`15 → 64`; consequently it is injective on dlc values above 8. -/
theorem can_dlc_to_bytes_table (dlc : Nat) :
    (dlc ≤ 8 → can_dlc_to_bytes dlc = dlc)
    ∧ can_dlc_to_bytes 9 = 12 ∧ can_dlc_to_bytes 10 = 16
    ∧ can_dlc_to_bytes 11 = 20 ∧ can_dlc_to_bytes 12 = 24
    ∧ can_dlc_to_bytes 13 = 32 ∧ can_dlc_to_bytes 14 = 48
    ∧ can_dlc_to_bytes 15 = 64
    ∧ (∀ a b : Nat, 8 < a → a ≤ 15 → 8 < b → b ≤ 15 →
        can_dlc_to_bytes a = can_dlc_to_bytes b → a = b) := by
  refine ⟨fun h => ?_, rfl, rfl, rfl, rfl, rfl, rfl, rfl, fun a b ha1 ha2 hb1 hb2 h => ?_⟩
  · interval_cases dlc <;> rfl
  · interval_cases a <;> interval_cases b <;> simp_all [can_dlc_to_bytes, dlc_table]

/-- Witness for C4 at `dlc = 7`: the identity band below 8. -/
theorem can_dlc_to_bytes_table_witness :
    can_dlc_to_bytes 7 = 7 :=
  (can_dlc_to_bytes_table 7).1 (by decide)

/-- Claim C10: `can_dlc_to_bytes` is total on every 8-bit input: the table
index is clamped, so every `dlc > 15` yields 64 and no input yields more
than 64 bytes. -/
theorem can_dlc_to_bytes_total (dlc : Nat) (h : dlc < 256) :
    (15 < dlc → can_dlc_to_bytes dlc = 64) ∧ can_dlc_to_bytes dlc ≤ 64 := by
  constructor
  · intro h15
    have hmin : min dlc (dlc_table.length - 1) = 15 := by
      simp [dlc_table]; omega
    unfold can_dlc_to_bytes
    rw [hmin]
    decide
  · rcases Nat.lt_or_ge dlc 16 with hlt | hge
    · interval_cases dlc <;> decide
    · have hmin : min dlc (dlc_table.length - 1) = 15 := by
        simp [dlc_table]; omega
      unfold can_dlc_to_bytes
      rw [hmin]
      decide

/-- Witness for C10 at `dlc = 200`. -/
theorem can_dlc_to_bytes_total_witness :
    can_dlc_to_bytes 200 = 64 ∧ can_dlc_to_bytes 200 ≤ 64 :=
  ⟨(can_dlc_to_bytes_total 200 (by decide)).1 (by decide),
   (can_dlc_to_bytes_total 200 (by decide)).2⟩

/-- Claim C7: `CAN_CALC_TDCO` computes exactly
`clamp((1 + prop_seg + phase_seg1) * prescaler, tdco_min, tdco_max)`:
the result is `tdco_min` when the product is below `tdco_min`, `tdco_max`
when above `tdco_max`, and the product itself otherwise. -/
theorem can_calc_tdco_clamp (td : can_timing) (tdco_min tdco_max : Nat)
    (hb : tdco_min ≤ tdco_max) :
    ((1 + td.prop_seg + td.phase_seg1) * td.prescaler < tdco_min →
      CAN_CALC_TDCO td tdco_min tdco_max = tdco_min)
    ∧ (tdco_max < (1 + td.prop_seg + td.phase_seg1) * td.prescaler →
      CAN_CALC_TDCO td tdco_min tdco_max = tdco_max)
    ∧ (tdco_min ≤ (1 + td.prop_seg + td.phase_seg1) * td.prescaler →
      (1 + td.prop_seg + td.phase_seg1) * td.prescaler ≤ tdco_max →
      CAN_CALC_TDCO td tdco_min tdco_max
        = (1 + td.prop_seg + td.phase_seg1) * td.prescaler) := by
  unfold CAN_CALC_TDCO CLAMP
  refine ⟨fun h1 => ?_, fun h2 => ?_, fun h3 h4 => ?_⟩ <;> split_ifs <;> omega

/-- Witness for C7 at a concrete data-phase timing: the in-range case. -/
theorem can_calc_tdco_clamp_witness :
    CAN_CALC_TDCO ⟨1, 2, 3, 2, 2⟩ 1 20 = (1 + 2 + 3) * 2 :=
  (can_calc_tdco_clamp ⟨1, 2, 3, 2, 2⟩ 1 20 (by decide)).2.2 (by decide) (by decide)

/-- Claim C9: when the backend does not implement the maximum-filter-count
query, `can_get_max_filters` returns the documented not-implemented
sentinel `-1` rather than a count; when the capability is present it
returns exactly the backend-reported count for the requested id width. -/
theorem can_get_max_filters_spec (api : can_driver_api) (ide : Bool) :
    (api.get_max_filters = none → can_get_max_filters api ide = -1)
    ∧ (∀ f : Bool → Int, api.get_max_filters = some f →
        can_get_max_filters api ide = f ide) := by
  constructor
  · intro h
    simp [can_get_max_filters, h]
  · intro f h
    simp [can_get_max_filters, h]

/-- Witness for C9: an absent capability yields `-1`, a present capability
reporting 5 standard filters yields 5. -/
theorem can_get_max_filters_spec_witness :
    can_get_max_filters ⟨none⟩ false = -1
    ∧ can_get_max_filters ⟨some (fun _ => 5)⟩ false = 5 :=
  ⟨(can_get_max_filters_spec ⟨none⟩ false).1 rfl,
   (can_get_max_filters_spec ⟨some (fun _ => 5)⟩ false).2 (fun _ => 5) rfl⟩

/-- The fold underlying `argminList` returns the initial element or a list
element. -/
theorem foldMin_mem {α : Type} (cost : α → Nat) (xs : List α) (a : α) :
    xs.foldl (fun u v => if cost v < cost u then v else u) a ∈ a :: xs := by
  induction xs generalizing a with
  | nil => simp
  | cons x xs ih =>
    simp only [List.foldl_cons]
    have h := ih (if cost x < cost a then x else a)
    rcases List.mem_cons.mp h with h | h
    · rw [h]
      split_ifs
      · simp
      · simp
    · exact List.mem_cons_of_mem _ (List.mem_cons_of_mem _ h)

/-- The fold underlying `argminList` minimises the cost over the initial
element and the list elements. -/
theorem foldMin_le {α : Type} (cost : α → Nat) (xs : List α) (a : α) :
    cost (xs.foldl (fun u v => if cost v < cost u then v else u) a) ≤ cost a
    ∧ ∀ y ∈ xs, cost (xs.foldl (fun u v => if cost v < cost u then v else u) a) ≤ cost y := by
  induction xs generalizing a with
  | nil => simp
  | cons x xs ih =>
    simp only [List.foldl_cons]
    obtain ⟨h1, h2⟩ := ih (if cost x < cost a then x else a)
    have hle : cost (if cost x < cost a then x else a) ≤ cost a := by
      split_ifs with hc
      · omega
      · exact le_rfl
    have hlex : cost (if cost x < cost a then x else a) ≤ cost x := by
      split_ifs with hc
      · exact le_rfl
      · omega
    refine ⟨le_trans h1 hle, ?_⟩
    intro y hy
    rcases List.mem_cons.mp hy with rfl | hy
    · exact le_trans h1 hlex
    · exact h2 y hy

/-- A returned argmin is a member of the list. -/
theorem argminList_mem {α : Type} (cost : α → Nat) (l : List α) (x : α)
    (h : argminList cost l = some x) : x ∈ l := by
  cases l with
  | nil => simp [argminList] at h
  | cons b xs =>
    simp only [argminList, Option.some.injEq] at h
    rw [← h]
    exact foldMin_mem cost xs b

/-- A returned argmin has minimal cost among the list elements. -/
theorem argminList_le {α : Type} (cost : α → Nat) (l : List α) (x : α)
    (h : argminList cost l = some x) : ∀ y ∈ l, cost x ≤ cost y := by
  cases l with
  | nil => simp [argminList] at h
  | cons b xs =>
    simp only [argminList, Option.some.injEq] at h
    intro y hy
    rw [← h]
    rcases List.mem_cons.mp hy with rfl | hy
    · exact (foldMin_le cost xs y).1
    · exact (foldMin_le cost xs b).2 y hy

/-- `argminList` returns `none` exactly on the empty list. -/
theorem argminList_eq_none {α : Type} (cost : α → Nat) (l : List α) :
    argminList cost l = none ↔ l = [] := by
  cases l <;> simp [argminList]

/-- Membership characterisation of the exact-bitrate candidate list. -/
theorem exactCandidates_mem
    (cc br pres_min pres_max ts_min ts_max p ts : Nat) :
    (p, ts) ∈ exactCandidates cc br pres_min pres_max ts_min ts_max ↔
      (pres_min ≤ p ∧ p ≤ pres_max ∧ ts_min ≤ ts ∧ ts ≤ ts_max
        ∧ cc = br * p * ts) := by
  unfold exactCandidates
  simp only [List.mem_flatMap, List.mem_filterMap, List.mem_range'_1]
  constructor
  · rintro ⟨p', hp', ts', hts', hif⟩
    split_ifs at hif with hc
    obtain ⟨hp, hts⟩ := Prod.mk.injEq .. ▸ Option.some.inj hif
    subst hp
    subst hts
    exact ⟨by omega, by omega, by omega, by omega, hc⟩
  · rintro ⟨h1, h2, h3, h4, h5⟩
    refine ⟨p, by omega, ts, by omega, ?_⟩
    rw [if_pos h5]

/-- The segment split always sums (with the sync segment) to the requested
total number of quanta. -/
theorem split_total (ts sp : Nat) (h : 1 ≤ ts) :
    1 + splitProp ts sp + splitPs1 ts sp + splitPs2 ts sp = ts := by
  unfold splitProp splitPs1 splitPs2 sampleQuanta
  generalize ts * sp / 1000 = q
  omega

/-- Claim C1: for every core clock, bitrate and sample point, whenever
`can_calc_timing` succeeds it returns timing parameters inside the
supplied prescaler and segment bounds satisfying
`core_clock = bitrate * prescaler * (1 + prop_seg + phase_seg1 + phase_seg2)`
exactly; and if no prescaler/segment combination within bounds meets the
requested bitrate exactly, it fails (returns `none`) rather than returning
an approximate bitrate. -/
theorem can_calc_timing_exact
    (cc pres_min pres_max ts_min ts_max bitrate sample_pnt : Nat)
    (hts : 1 ≤ ts_min) :
    (∀ (t : can_timing) (err : Int),
        can_calc_timing cc pres_min pres_max ts_min ts_max bitrate sample_pnt
          = some (t, err) →
        cc = bitrate * t.prescaler * totalSegs t
        ∧ pres_min ≤ t.prescaler ∧ t.prescaler ≤ pres_max
        ∧ ts_min ≤ totalSegs t ∧ totalSegs t ≤ ts_max)
    ∧ ((¬ ∃ p ts : Nat, pres_min ≤ p ∧ p ≤ pres_max ∧ ts_min ≤ ts ∧ ts ≤ ts_max
          ∧ cc = bitrate * p * ts) →
        can_calc_timing cc pres_min pres_max ts_min ts_max bitrate sample_pnt
          = none) := by
  constructor
  · intro t err h
    unfold can_calc_timing can_calc_timing_resolved at h
    rw [Option.map_eq_some'] at h
    obtain ⟨⟨p, ts⟩, harg, hmk⟩ := h
    simp only [Prod.mk.injEq] at hmk
    obtain ⟨ht, herr⟩ := hmk
    have hmem := argminList_mem _ _ _ harg
    rw [exactCandidates_mem] at hmem
    obtain ⟨hp1, hp2, h1, h2, heq⟩ := hmem
    have htot : totalSegs t = ts := by
      rw [← ht]
      unfold totalSegs
      exact split_total ts (resolveSamplePoint bitrate sample_pnt)
        (le_trans hts h1)
    have hpres : t.prescaler = p := by rw [← ht]
    rw [htot, hpres]
    exact ⟨heq, hp1, hp2, h1, h2⟩
  · intro hno
    unfold can_calc_timing can_calc_timing_resolved
    rw [Option.map_eq_none', argminList_eq_none, List.eq_nil_iff_forall_not_mem]
    rintro ⟨p, ts⟩ hc
    rw [exactCandidates_mem] at hc
    exact hno ⟨p, ts, hc⟩

/-- Witness for C1: the spec's worked example, an 8 MHz core clock at
500 kbit/s and an 87.5 % sample point, yields 16 quanta with prescaler 1
(`8_000_000 = 500_000 * 1 * 16`) inside the bounds. -/
theorem can_calc_timing_exact_witness :
    8000000 = 500000 * (can_timing.mk 1 7 6 2 1).prescaler
        * totalSegs (can_timing.mk 1 7 6 2 1)
    ∧ 1 ≤ (can_timing.mk 1 7 6 2 1).prescaler
    ∧ (can_timing.mk 1 7 6 2 1).prescaler ≤ 2
    ∧ 8 ≤ totalSegs (can_timing.mk 1 7 6 2 1)
    ∧ totalSegs (can_timing.mk 1 7 6 2 1) ≤ 16 :=
  (can_calc_timing_exact 8000000 1 2 8 16 500000 875 (by decide)).1
    (can_timing.mk 1 7 6 2 1) 0 (by decide)

/-- Claim C6: calling `can_calc_timing` with a zero sample point selects a
default sample point of 750 permille for bitrates above 800 kbit/s, 800
permille for bitrates above 500 kbit/s, and 875 permille for all other
bitrates. -/
theorem can_calc_timing_default_sample_point
    (cc pres_min pres_max ts_min ts_max bitrate : Nat) :
    can_calc_timing cc pres_min pres_max ts_min ts_max bitrate 0
      = can_calc_timing_resolved cc pres_min pres_max ts_min ts_max bitrate
          (if 800000 < bitrate then 750
           else if 500000 < bitrate then 800
           else 875) := by
  unfold can_calc_timing resolveSamplePoint
  simp

/-- Claim C8: for a caller-supplied fixed segment split,
`can_calc_prescaler` fills in exactly the prescaler field (all segment
fields unchanged) with the quotient of the core clock by the bitrate times
the total segment count, and returns the achieved bitrate's rounding error
as a non-negative result instead of failing: the returned error is the
remainder of that division, so quotient and remainder reconstruct the core
clock exactly. -/
theorem can_calc_prescaler_spec
    (core_clock : Nat) (timing : can_timing) (bitrate : Nat) :
    (can_calc_prescaler core_clock timing bitrate).1.prescaler
        = core_clock / (bitrate * totalSegs timing)
    ∧ (can_calc_prescaler core_clock timing bitrate).1.sjw = timing.sjw
    ∧ (can_calc_prescaler core_clock timing bitrate).1.prop_seg = timing.prop_seg
    ∧ (can_calc_prescaler core_clock timing bitrate).1.phase_seg1 = timing.phase_seg1
    ∧ (can_calc_prescaler core_clock timing bitrate).1.phase_seg2 = timing.phase_seg2
    ∧ (can_calc_prescaler core_clock timing bitrate).2
        = core_clock % (bitrate * totalSegs timing)
    ∧ (0 : Int) ≤ ((can_calc_prescaler core_clock timing bitrate).2 : Int)
    ∧ (0 < bitrate * totalSegs timing →
        core_clock
            = bitrate * totalSegs timing
                * (can_calc_prescaler core_clock timing bitrate).1.prescaler
              + (can_calc_prescaler core_clock timing bitrate).2
        ∧ (can_calc_prescaler core_clock timing bitrate).2
            < bitrate * totalSegs timing) := by
  refine ⟨rfl, rfl, rfl, rfl, rfl, rfl, Int.natCast_nonneg _, fun hpos => ⟨?_, ?_⟩⟩
  · exact (Nat.div_add_mod core_clock (bitrate * totalSegs timing)).symm
  · exact Nat.mod_lt _ hpos

/-- Witness for C8 at an 8 MHz core clock, 500 kbit/s and a 16-quanta
split: prescaler 1, error 0. -/
theorem can_calc_prescaler_spec_witness :
    8000000
        = 500000 * totalSegs (can_timing.mk 1 7 6 2 0)
            * (can_calc_prescaler 8000000 (can_timing.mk 1 7 6 2 0) 500000).1.prescaler
          + (can_calc_prescaler 8000000 (can_timing.mk 1 7 6 2 0) 500000).2
    ∧ (can_calc_prescaler 8000000 (can_timing.mk 1 7 6 2 0) 500000).2
        < 500000 * totalSegs (can_timing.mk 1 7 6 2 0) :=
  (can_calc_prescaler_spec 8000000 (can_timing.mk 1 7 6 2 0) 500000).2.2.2.2.2.2.2
    (by decide)

/-- Claim C5: among all frames queued and not yet handed to the backend,
the next frame dispatched is always one with the lowest priority key, and
the key orders frames as specified: a lower identifier is dispatched
first, a data frame before a remote-request frame with the same
identifier, and a standard-id frame before an extended-id frame sharing
the same base 11 bits. -/
theorem can_send_dispatch_order :
    (∀ (queue : List can_frame) (f : can_frame), nextDispatch queue = some f →
        f ∈ queue ∧ ∀ g ∈ queue, prioKey f ≤ prioKey g)
    ∧ (∀ a b : can_frame, frameIde a = frameIde b → frameRtr a = frameRtr b →
        a.id < b.id → prioKey a < prioKey b)
    ∧ (∀ a b : can_frame, frameIde a = frameIde b → a.id = b.id →
        frameRtr a = false → frameRtr b = true → prioKey a < prioKey b)
    ∧ (∀ a b : can_frame, frameIde a = false → frameIde b = true →
        b.id / 262144 = a.id → prioKey a < prioKey b) := by
  refine ⟨?_, ?_, ?_, ?_⟩
  · intro q f h
    exact ⟨argminList_mem prioKey q f h, argminList_le prioKey q f h⟩
  · intro a b hide hrtr hid
    unfold prioKey arbId
    rw [hide, hrtr]
    cases hb : frameIde b <;> cases hr : frameRtr b <;> simp <;> omega
  · intro a b hide hid hra hrb
    unfold prioKey arbId
    rw [hide, hid, hra, hrb]
    cases hb : frameIde b <;> simp
  · intro a b ha hb hdiv
    unfold prioKey arbId
    rw [ha, hb]
    cases hra : frameRtr a <;> cases hrb : frameRtr b <;> simp <;> omega

/-- Witness for C5: in a queue holding standard data frames with ids 5 and
3, the frame with id 3 is dispatched next and its key is minimal. -/
theorem can_send_dispatch_order_witness :
    (can_frame.mk 3 0 0 []) ∈ [can_frame.mk 5 0 0 [], can_frame.mk 3 0 0 []]
    ∧ ∀ g ∈ [can_frame.mk 5 0 0 [], can_frame.mk 3 0 0 []],
        prioKey (can_frame.mk 3 0 0 []) ≤ prioKey g :=
  can_send_dispatch_order.1 [can_frame.mk 5 0 0 [], can_frame.mk 3 0 0 []]
    (can_frame.mk 3 0 0 []) (by decide)
